import Mathlib

/-!
Verification of the qudi configuration codec (`core/config.py`).

The module under study provides a YAML-based loader/dumper for configuration
documents: an insertion-ordered mapping model, custom tags `!ndarray`
(inline compressed array blob), `!extndarray` (array externalized to a
sibling file) and `!frozenset`, a legacy string-to-array reconstruction
heuristic in `construct_str`, and a path-based `load`/`save` facade.

The development below is a shallow embedding: documents, YAML nodes and
the constructor/representer functions of `core/config.py` are translated
into executable Lean definitions, and the behavioural claims about the
codec are proved or refuted against those definitions.  Third-party
behaviour (the base YAML scalar grammar, CPython's `eval` environment
rules, the npz archive codec) is modelled explicitly where a claim
depends on it; each such definition carries a comment saying what it
models.
-/

namespace Config

/-- Integer bit-widths of the numeric scalar values the dumper registers
representers for (`numpy.int8` .. `numpy.uint64`), plus `py` for the
arbitrary-precision Python `int` produced by the loader. -/
inductive IntW where
  | py | i8 | u8 | i16 | u16 | i32 | u32 | i64 | u64
deriving DecidableEq, Repr

/-- Floating-point widths (`numpy.float16/32/64`); `f64` doubles as the
width of a plain Python `float`. -/
inductive FloatW where
  | f16 | f32 | f64
deriving DecidableEq, Repr

/-- Dense numeric array: a shape, an int-versus-float element kind flag,
and the element values (floats are modelled as the rational numbers they
denote). -/
structure NDArr where
  shape : List Nat
  isInt : Bool
  data : List Rat
deriving DecidableEq, Repr

/-- Models a compressed npz archive holding exactly one entry named
`array`, as produced by `numpy.savez_compressed(..., array=data)` and read
back by `numpy.load(...)['array']`.  The third-party codec is faithful, so
it is modelled as a wrapper that preserves the array exactly. -/
structure Npz where
  array : NDArr
deriving DecidableEq, Repr

/-- Python-level exceptions that the modelled code can raise or propagate. -/
inductive PyErr where
  | nameError (n : String)
  | typeError (s : String)
  | valueError (s : String)
  | ioError (s : String)
  | fileNotFound (s : String)
deriving DecidableEq, Repr

mutual
/-- In-memory document values: the Python values `ordered_load` produces and
`ordered_dump` consumes (None, bool, int, float, str, list, OrderedDict,
frozenset, numpy.ndarray).  Mapping keys are strings, per the data model
of the configuration format (keys are always strings). -/
inductive Value where
  | vnull
  | vbool (b : Bool)
  | vint (w : IntW) (n : Int)
  | vfloat (w : FloatW) (q : Rat)
  | vstr (s : String)
  | vseq (l : VList)
  | vmap (m : VPairs)
  | vset (l : VList)
  | varray (a : NDArr)

/-- A list of values (children of a sequence or frozenset). -/
inductive VList where
  | nil
  | cons (v : Value) (t : VList)

/-- An ordered association list of string keys to values: the contents of
an `OrderedDict`. -/
inductive VPairs where
  | nil
  | cons (k : String) (v : Value) (t : VPairs)
end

mutual
/-- YAML document nodes after parsing / before emission, restricted to the
tags the codec deals in: the core scalar tags, sequences, mappings, and
the custom tags `!frozenset`, `!ndarray`, `!extndarray`. -/
inductive Node where
  | nullN
  | boolN (b : Bool)
  | intN (n : Int)
  | floatN (q : Rat)
  | strN (s : String)
  | seqN (l : NList)
  | mapN (m : NPairs)
  | frozensetN (l : NList)
  | ndN (blob : Npz)
  | extN (path : String)

/-- A list of nodes. -/
inductive NList where
  | nil
  | cons (n : Node) (t : NList)

/-- The pairs of a mapping node; keys are string scalars. -/
inductive NPairs where
  | nil
  | cons (k : String) (n : Node) (t : NPairs)
end

deriving instance DecidableEq for Value, VList, VPairs
deriving instance DecidableEq for Node, NList, NPairs
deriving instance DecidableEq for Except

/-- Length of a value list. -/
def VList.len : VList → Nat
  | .nil => 0
  | .cons _ t => t.len + 1

/-- The keys of an ordered pair list, in order (`OrderedDict.keys()`). -/
def keysOf : VPairs → List String
  | .nil => []
  | .cons k _ t => k :: keysOf t

/-- Appends two pair lists. -/
def appendP : VPairs → VPairs → VPairs
  | .nil, q => q
  | .cons k v t, q => .cons k v (appendP t q)

/-- First-match association lookup on an ordered pair list
(`OrderedDict.__getitem__` — keys are unique in a real dict, so the first
match is the binding). -/
def findVP : VPairs → String → Option Value
  | .nil, _ => none
  | .cons k v t, x => if k = x then some v else findVP t x

/-- The value of the LAST occurrence of a key in a raw pair list. -/
def lastVP : VPairs → String → Option Value
  | .nil, _ => none
  | .cons k v t, x =>
    match lastVP t x with
    | some w => some w
    | none => if k = x then some v else none

/-- Boolean no-duplicates test on a list of keys. -/
def nodupB : List String → Bool
  | [] => true
  | k :: t => !(t.contains k) && nodupB t

/-- No-duplicate-keys test for a pair list: true of the pair list of every
real `OrderedDict`. -/
def nodupKeysB (m : VPairs) : Bool := nodupB (keysOf m)

/-- One `OrderedDict.__setitem__` step: if the key is present, rebind it in
place (insertion order of an existing key is kept on update); otherwise
append the new pair at the end. -/
def odInsert : VPairs → String → Value → VPairs
  | .nil, k, v => .cons k v .nil
  | .cons k0 v0 t, k, v =>
    if k0 = k then .cons k0 v t else .cons k0 v0 (odInsert t k v)

/-- Folds `__setitem__` over a pair list, starting from an accumulator. -/
def oodGo : VPairs → VPairs → VPairs
  | acc, .nil => acc
  | acc, .cons k v t => oodGo (odInsert acc k v) t

/-- Builds an `OrderedDict` from a (possibly duplicate-keyed) pair list by
sequential insertion: the model of `OrderedDict(loader.construct_pairs(node))`
in `construct_mapping` (config.py line 62). -/
def orderedDictOfPairs (ps : VPairs) : VPairs := oodGo .nil ps

/-- First-occurrence key deduplication: `firstGo seen l` keeps the first
occurrence of each key of `l` not already in `seen`, in order. -/
def firstGo : List String → List String → List String
  | _, [] => []
  | seen, k :: t =>
    if k ∈ seen then firstGo seen t else k :: firstGo (k :: seen) t

/-- The keys of a pair list with duplicates removed, each key kept at the
position of its first occurrence. -/
def firstKeys (l : List String) : List String := firstGo [] l

/-! ### Path arithmetic and external-file naming

Models of the `os.path` calls and the filename format string used by
`represent_ndarray` (config.py lines 175-178). -/

/-- Splits a character list at the last occurrence of a separator:
returns (part before the last `sep`, part after it), or `none` split if
`sep` does not occur. -/
def splitLast (sep : Char) : List Char → Option (List Char × List Char)
  | [] => none
  | c :: t =>
    match splitLast sep t with
    | some (a, b) => some (c :: a, b)
    | none => if c = sep then some ([], t) else none

/-- Models `os.path.basename`: the part of the path after the last slash. -/
def basename (p : String) : String :=
  match splitLast '/' p.data with
  | some (_, b) => String.mk b
  | none => p

/-- Models `os.path.dirname`: the part of the path before the last slash
(empty when the path has no slash). -/
def dirname (p : String) : String :=
  match splitLast '/' p.data with
  | some (a, _) => String.mk a
  | none => ""

/-- Models `os.path.splitext(...)[0]` on a basename: strips the extension
after the last dot, if any. -/
def stripExt (p : String) : String :=
  match splitLast '.' p.data with
  | some (a, _) => String.mk a
  | none => p

/-- Models `os.path.join(configdir, filename)` for the two-argument form
used by the dumper: empty directory yields the bare filename. -/
def pathJoin (d f : String) : String :=
  if d = "" then f else d ++ "/" ++ f

/-- One decimal digit as a character. -/
def digitCh : Nat → Char
  | 0 => '0' | 1 => '1' | 2 => '2' | 3 => '3' | 4 => '4'
  | 5 => '5' | 6 => '6' | 7 => '7' | 8 => '8' | 9 => '9'
  | _ => '?'

/-- Little-endian decimal digits of `n` (empty for 0), driven by fuel so
that concrete values reduce in the kernel. -/
def natDigitsF : Nat → Nat → List Nat
  | 0, _ => []
  | _ + 1, 0 => []
  | fuel + 1, n + 1 => (n + 1) % 10 :: natDigitsF fuel ((n + 1) / 10)

/-- Little-endian decimal digits of `n` (empty for 0). -/
def digitsOf (n : Nat) : List Nat := natDigitsF (n + 1) n

/-- The number a little-endian digit list denotes. -/
def undigits (l : List Nat) : Nat := l.foldr (fun d acc => d + 10 * acc) 0

/-- Little-endian decimal digit list of `n`, zero-padded up to 6 digits:
the digit content of Python's `'{:06}'.format(n)`. -/
def padDigits6 (n : Nat) : List Nat :=
  digitsOf n ++ List.replicate (6 - (digitsOf n).length) 0

/-- Models the format specifier `{1:06}`: the decimal representation of
`n`, left-padded with zeros to at least six characters. -/
def pad6Str (n : Nat) : String := String.mk (((padDigits6 n).map digitCh).reverse)

/-- The external array file name chosen by `represent_ndarray` for counter
value `k` when dumping to a stream named `nm` (config.py lines 175-178):
`os.path.join(dirname nm, splitext(basename nm)[0]) + '-' + '{:06}'.format(k)
+ '.npz'`. -/
def extPath (nm : String) (k : Nat) : String :=
  pathJoin (dirname nm) (stripExt (basename nm)) ++ "-" ++ pad6Str k ++ ".npz"

/-! ### The dumper -/

/-- The dump environment: the `.name` of the destination stream when it
has one (`None`-stream or in-memory streams have none, making
`stream.name` raise), and whether `numpy.savez_compressed` succeeds in
writing a given external path (false models an I/O failure). -/
structure DEnv where
  streamName : Option String
  writeOk : String → Bool

mutual
/-- The representer dispatch of `ordered_dump` (config.py lines 143-206):
turns a value into a node, threading the class-level
`external_ndarray_counter` and returning the list of external files
written.  Scalar numpy widths are converted to plain int/float scalars
(`represent_int` / `represent_float` via `numpy.asscalar`); `OrderedDict`
becomes a mapping node in stored order (`represent_ordereddict`);
`frozenset` becomes a `!frozenset`-tagged set node (`represent_frozenset`);
arrays follow `represent_ndarray`: when the stream has a name and the
external write succeeds, the node is `!extndarray` wrapping the chosen
path and the counter advances; on any failure (bare `except:`) the array
is embedded inline as `!ndarray` wrapping the compressed blob. -/
def repV (env : DEnv) : Value → Nat → Node × Nat × List (String × Npz)
  | .vnull, c => (.nullN, c, [])
  | .vbool b, c => (.boolN b, c, [])
  | .vint _ n, c => (.intN n, c, [])
  | .vfloat _ q, c => (.floatN q, c, [])
  | .vstr s, c => (.strN s, c, [])
  | .vseq l, c =>
    let r := repL env l c
    (.seqN r.1, r.2.1, r.2.2)
  | .vmap m, c =>
    let r := repP env m c
    (.mapN r.1, r.2.1, r.2.2)
  | .vset l, c =>
    let r := repL env l c
    (.frozensetN r.1, r.2.1, r.2.2)
  | .varray a, c =>
    match env.streamName with
    | some nm =>
      let p := extPath nm c
      if env.writeOk p then (.extN p, c + 1, [(p, ⟨a⟩)])
      else (.ndN ⟨a⟩, c, [])
    | none => (.ndN ⟨a⟩, c, [])

/-- Represents the items of a sequence (or of a set) left to right. -/
def repL (env : DEnv) : VList → Nat → NList × Nat × List (String × Npz)
  | .nil, c => (.nil, c, [])
  | .cons v t, c =>
    let r1 := repV env v c
    let r2 := repL env t r1.2.1
    (.cons r1.1 r2.1, r2.2.1, r1.2.2 ++ r2.2.2)

/-- Represents the items of an ordered mapping in stored key order. -/
def repP (env : DEnv) : VPairs → Nat → NPairs × Nat × List (String × Npz)
  | .nil, c => (.nil, c, [])
  | .cons k v t, c =>
    let r1 := repV env v c
    let r2 := repP env t r1.2.1
    (.cons k r1.1 r2.1, r2.2.1, r1.2.2 ++ r2.2.2)
end

mutual
/-- All array payloads occurring in a value, in representation order. -/
def arraysOf : Value → List NDArr
  | .varray a => [a]
  | .vseq l => arraysOfL l
  | .vset l => arraysOfL l
  | .vmap m => arraysOfP m
  | _ => []

/-- Arrays of a value list, in order. -/
def arraysOfL : VList → List NDArr
  | .nil => []
  | .cons v t => arraysOf v ++ arraysOfL t

/-- Arrays of a pair list, in order. -/
def arraysOfP : VPairs → List NDArr
  | .nil => []
  | .cons _ v t => arraysOf v ++ arraysOfP t
end

mutual
/-- The `!extndarray` path references occurring in a node, in order. -/
def extRefs : Node → List String
  | .extN p => [p]
  | .seqN l => extRefsL l
  | .mapN m => extRefsP m
  | .frozensetN l => extRefsL l
  | _ => []

/-- External references of a node list. -/
def extRefsL : NList → List String
  | .nil => []
  | .cons n t => extRefs n ++ extRefsL t

/-- External references of a node pair list. -/
def extRefsP : NPairs → List String
  | .nil => []
  | .cons _ n t => extRefs n ++ extRefsP t
end

/-- The external files a dump starting at counter `c` writes for the
arrays `l`, in order: the `k`-th array of `l` goes to `extPath nm (c+k)`. -/
def enumFiles (nm : String) : Nat → List NDArr → List (String × Npz)
  | _, [] => []
  | c, a :: t => (extPath nm c, ⟨a⟩) :: enumFiles nm (c + 1) t

/-! ### The legacy string-to-array evaluator of `construct_str`

`construct_str` (config.py lines 88-108) passes any string scalar that
begins with `array(` to the host interpreter's `eval`, with an explicit
globals dict holding only `numpy.array` and eleven numeric dtype names.
The definitions below model that evaluation: the explicit vocabulary is
taken verbatim from the source; the grammar covered (integer and float
literals with optional exponents, nested bracketed lists, calls of the
vocabulary names) is the language of legacy `repr(ndarray)` strings that
the heuristic exists for.  Characters and shapes outside that language
are modelled as evaluation failures. -/

/-- The dtype names registered into the eval environment, in the order of
the loop at config.py lines 101-102. -/
def dtypeNames : List String :=
  ["int8", "uint8", "int16", "uint16", "float16", "int32", "uint32",
   "float32", "int64", "uint64", "float64"]

/-- The explicit `local` globals dict built by `construct_str` (config.py
lines 100-103): the `array` constructor plus the dtype names. -/
def evalAllowList : List String := "array" :: dtypeNames

/-- A representative list of names the `builtins` module exports.  CPython
inserts a `__builtins__` binding into any globals mapping passed to `eval`
that lacks one, so every builtin name resolves inside the `eval` call of
`construct_str` even though it is absent from the explicit dict. -/
def pythonBuiltins : List String :=
  ["__import__", "open", "getattr", "setattr", "compile", "print",
   "type", "object", "vars", "globals"]

/-- All names that resolve during the `eval` call of `construct_str`:
the explicit allow-list plus (by CPython's globals-injection rule) the
builtins. -/
def evalReachableNames : List String := evalAllowList ++ pythonBuiltins

/-- Tokens of the legacy array-literal language. -/
inductive Tok where
  | tInt (n : Nat)
  | tFloat (q : Rat)
  | tIdent (s : String)
  | tLP | tRP | tLB | tRB | tComma | tMinus
deriving DecidableEq, Repr

/-- Identifier characters: letters, digits and underscore. -/
def isIdentCh (c : Char) : Bool := c.isAlpha || c.isDigit || c = '_'

/-- The natural number denoted by a list of decimal digit characters. -/
def natOfDigits (l : List Char) : Nat :=
  l.foldl (fun acc c => acc * 10 + (c.toNat - 48)) 0

/-- Reads the numeric token starting with digit characters `ds`: optional
fraction after a dot and optional signed exponent, as in `1.5e-03`.
Returns the token and the unconsumed characters. -/
def lexNum (ds : List Char) (rest : List Char) : Tok × List Char :=
  let ip : Nat := natOfDigits ds
  let afterInt :=
    match rest with
    | '.' :: r1 =>
      let fs := r1.takeWhile Char.isDigit
      let r2 := r1.dropWhile Char.isDigit
      ((ip : Rat) + (natOfDigits fs : Rat) / (10 : Rat) ^ fs.length, true, r2)
    | _ => ((ip : Rat), false, rest)
  let q := afterInt.1
  let isFloat := afterInt.2.1
  let r2 := afterInt.2.2
  match r2 with
  | e :: r3 =>
    if e = 'e' || e = 'E' then
      let sgnRest :=
        match r3 with
        | '+' :: r4 => ((1 : Int), r4)
        | '-' :: r4 => ((-1 : Int), r4)
        | _ => ((1 : Int), r3)
      let es := sgnRest.2.takeWhile Char.isDigit
      let r5 := sgnRest.2.dropWhile Char.isDigit
      if es = [] then (if isFloat then .tFloat q else .tInt ip, r2)
      else (.tFloat (q * (10 : Rat) ^ (sgnRest.1 * (natOfDigits es : Int))), r5)
    else (if isFloat then .tFloat q else .tInt ip, r2)
  | [] => (if isFloat then .tFloat q else .tInt ip, r2)

/-- Fuel-driven tokenizer; `none` models a `SyntaxError` from a character
outside the legacy array-literal language. -/
def tokGo : Nat → List Char → Option (List Tok)
  | 0, _ => none
  | _, [] => some []
  | fuel + 1, c :: r =>
    if c = ' ' || c = '\n' || c = '\t' then tokGo fuel r
    else if c = '(' then (tokGo fuel r).map (Tok.tLP :: ·)
    else if c = ')' then (tokGo fuel r).map (Tok.tRP :: ·)
    else if c = '[' then (tokGo fuel r).map (Tok.tLB :: ·)
    else if c = ']' then (tokGo fuel r).map (Tok.tRB :: ·)
    else if c = ',' then (tokGo fuel r).map (Tok.tComma :: ·)
    else if c = '-' then (tokGo fuel r).map (Tok.tMinus :: ·)
    else if c.isDigit then
      let ds := (c :: r).takeWhile Char.isDigit
      let r1 := (c :: r).dropWhile Char.isDigit
      let tr := lexNum ds r1
      (tokGo fuel tr.2).map (tr.1 :: ·)
    else if c.isAlpha || c = '_' then
      let xs := (c :: r).takeWhile isIdentCh
      let r1 := (c :: r).dropWhile isIdentCh
      (tokGo fuel r1).map (Tok.tIdent (String.mk xs) :: ·)
    else none

/-- Tokenizes a string of the legacy array-literal language. -/
def tokenize (s : String) : Option (List Tok) := tokGo (s.data.length + 1) s.data

mutual
/-- Expressions of the legacy array-literal language. -/
inductive PExpr where
  | pInt (n : Int)
  | pFloat (q : Rat)
  | pIdent (x : String)
  | pList (l : PArgs)
  | pCall (f : String) (args : PArgs)

/-- Comma-separated expression lists. -/
inductive PArgs where
  | nil
  | cons (e : PExpr) (t : PArgs)
end

deriving instance DecidableEq for PExpr, PArgs

mutual
/-- Fuel-driven recursive-descent parser for one expression. -/
def parseE : Nat → List Tok → Option (PExpr × List Tok)
  | 0, _ => none
  | _ + 1, .tInt n :: r => some (.pInt (n : Int), r)
  | _ + 1, .tFloat q :: r => some (.pFloat q, r)
  | _ + 1, .tMinus :: .tInt n :: r => some (.pInt (-(n : Int)), r)
  | _ + 1, .tMinus :: .tFloat q :: r => some (.pFloat (-q), r)
  | fuel + 1, .tIdent x :: r =>
    match r with
    | .tLP :: r1 =>
      match parseArgs fuel r1 Tok.tRP with
      | some (l, r2) => some (.pCall x l, r2)
      | none => none
    | _ => some (.pIdent x, r)
  | fuel + 1, .tLB :: r =>
    match parseArgs fuel r Tok.tRB with
    | some (l, r1) => some (.pList l, r1)
    | none => none
  | _ + 1, _ => none

/-- Parses a possibly empty comma-separated expression list up to the
closing token (a trailing comma is allowed, as in Python). -/
def parseArgs : Nat → List Tok → Tok → Option (PArgs × List Tok)
  | 0, _, _ => none
  | fuel + 1, ts, closer =>
    match ts with
    | [] => none
    | t :: r =>
      if t = closer then some (.nil, r)
      else
        match parseE fuel ts with
        | some (e, r1) =>
          match r1 with
          | .tComma :: r2 =>
            (match r2 with
             | [] => none
             | c2 :: r3 =>
               if c2 = closer then some (.cons e .nil, r3)
               else
                 match parseArgs fuel r2 closer with
                 | some (l, r4) => some (.cons e l, r4)
                 | none => none)
          | c1 :: r2 => if c1 = closer then some (.cons e .nil, r2) else none
          | [] => none
        | none => none
end

/-- The integer width a dtype name denotes, if it is an integer dtype. -/
def intWOf (s : String) : Option IntW :=
  if s = "int8" then some .i8 else if s = "uint8" then some .u8
  else if s = "int16" then some .i16 else if s = "uint16" then some .u16
  else if s = "int32" then some .i32 else if s = "uint32" then some .u32
  else if s = "int64" then some .i64 else if s = "uint64" then some .u64
  else none

/-- The float width a dtype name denotes, if it is a float dtype. -/
def floatWOf (s : String) : Option FloatW :=
  if s = "float16" then some .f16 else if s = "float32" then some .f32
  else if s = "float64" then some .f64 else none

/-- Stacks equally shaped child arrays into one array one dimension higher;
the empty list gives `numpy.array([])`, the empty float array of shape 0. -/
def stackArr : List NDArr → Option NDArr
  | [] => some ⟨[0], false, []⟩
  | a :: rest =>
    if rest.all (fun b => b.shape = a.shape) then
      some ⟨(rest.length + 1) :: a.shape, (a :: rest).all (fun b => b.isInt),
            ((a :: rest).map (fun b => b.data)).flatten⟩
    else none

mutual
/-- Converts a Python value into the numeric array `numpy.array` builds
from it: a numeric scalar gives a 0-d array, a list of convertible values
with equal child shapes stacks into a higher-dimensional array.  `none`
models a conversion numpy would reject (or one outside this model). -/
def toNDArr : Value → Option NDArr
  | .vint _ n => some ⟨[], true, [(n : Rat)]⟩
  | .vfloat _ q => some ⟨[], false, [q]⟩
  | .vseq l =>
    match toArrList l with
    | some items => stackArr items
    | none => none
  | _ => none

/-- Converts every element of a list. -/
def toArrList : VList → Option (List NDArr)
  | .nil => some []
  | .cons v t =>
    match toNDArr v, toArrList t with
    | some a, some l => some (a :: l)
    | _, _ => none
end

mutual
/-- Evaluates an expression the way CPython's `eval` does under the
environment of `construct_str`: literals and lists evaluate to values;
a name that resolves to nothing raises `NameError`; calls of `array` and
of the dtype names apply the numpy constructors; calls of builtin names
resolve (CPython injects `__builtins__`) but their arbitrary effects are
outside this model, recorded as a non-`SyntaxError` exception. -/
def evalE : PExpr → Except PyErr Value
  | .pInt n => .ok (.vint .py n)
  | .pFloat q => .ok (.vfloat .f64 q)
  | .pIdent x =>
    if evalReachableNames.contains x then .error (.typeError x)
    else .error (.nameError x)
  | .pList l =>
    match evalArgs l with
    | .ok vl => .ok (.vseq vl)
    | .error e => .error e
  | .pCall f args =>
    if f = "array" then
      match evalArgs args with
      | .error e => .error e
      | .ok (.cons x .nil) =>
        match toNDArr x with
        | some a => .ok (.varray a)
        | none => .error (.valueError f)
      | .ok _ => .error (.typeError f)
    else if (intWOf f).isSome then
      match evalArgs args with
      | .error e => .error e
      | .ok (.cons (.vint _ n) .nil) => .ok (.vint ((intWOf f).getD .py) n)
      | .ok _ => .error (.typeError f)
    else if (floatWOf f).isSome then
      match evalArgs args with
      | .error e => .error e
      | .ok (.cons (.vint _ n) .nil) => .ok (.vfloat ((floatWOf f).getD .f64) (n : Rat))
      | .ok (.cons (.vfloat _ q) .nil) => .ok (.vfloat ((floatWOf f).getD .f64) q)
      | .ok _ => .error (.typeError f)
    else if pythonBuiltins.contains f then .error (.typeError f)
    else .error (.nameError f)

/-- Evaluates the expressions of an argument or list body, left to right,
propagating the first exception. -/
def evalArgs : PArgs → Except PyErr VList
  | .nil => .ok .nil
  | .cons e t =>
    match evalE e with
    | .error err => .error err
    | .ok v =>
      match evalArgs t with
      | .ok vt => .ok (.cons v vt)
      | .error err => .error err
end

/-- Outcome of `eval` on a candidate array string: a value, a
`SyntaxError`, or some other exception. -/
inductive EvalRes where
  | ok (v : Value)
  | syntaxErr
  | exc (e : PyErr)
deriving DecidableEq

/-- Models `eval(value, local)` for the strings `construct_str` feeds it:
tokenize, parse one expression consuming all input (anything else is a
`SyntaxError`), then evaluate. -/
def pyEval (s : String) : EvalRes :=
  match tokenize s with
  | none => .syntaxErr
  | some ts =>
    match parseE (2 * ts.length + 2) ts with
    | some (e, []) =>
      match evalE e with
      | .ok v => .ok v
      | .error err => .exc err
    | some (_, _ :: _) => .syntaxErr
    | none => .syntaxErr

/-- Prefix test on character lists (`str.startswith`). -/
def listStarts : List Char → List Char → Bool
  | [], _ => true
  | _ :: _, [] => false
  | a :: p, b :: q => a = b && listStarts p q

/-- The literal the heuristic looks for. -/
def arrLitChars : List Char := "array(".data

/-- The constructor registered for the default scalar tag (config.py lines
88-108): a string beginning with `array(` is passed to `eval` under the
allow-list globals; a `SyntaxError` falls back to the literal string;
every other exception propagates out of the loader. -/
def construct_str (value : String) : Except PyErr Value :=
  if listStarts arrLitChars value.data then
    match pyEval value with
    | .ok v => .ok v
    | .syntaxErr => .ok (.vstr value)
    | .exc e => .error e
  else .ok (.vstr value)

/-! ### The loader -/

/-- Looks a path up in the store of external npz files (the files visible
to `numpy.load`). -/
def findFile (fs : List (String × Npz)) (p : String) : Option Npz :=
  match fs.find? (fun e => e.1 = p) with
  | some e => some e.2
  | none => none

mutual
/-- The constructor dispatch of `ordered_load` (config.py lines 57-115):
turns a parsed node into a value.  Core scalar tags use the safe-loader
defaults (ints load as Python ints, floats as Python floats); the default
scalar (string) tag runs `construct_str`; mapping nodes run
`construct_mapping` (`flatten_mapping`, a no-op without merge keys, then
`OrderedDict(construct_pairs(node))`); `!frozenset` runs
`construct_frozenset` (the immutable set of the constructed elements);
`!ndarray` runs `construct_ndarray` (decode the embedded npz blob);
`!extndarray` runs `construct_external_ndarray` (`numpy.load` on the
stored path, an IOError when the file is absent). -/
def constructV (fs : List (String × Npz)) : Node → Except PyErr Value
  | .nullN => .ok .vnull
  | .boolN b => .ok (.vbool b)
  | .intN n => .ok (.vint .py n)
  | .floatN q => .ok (.vfloat .f64 q)
  | .strN s => construct_str s
  | .seqN l =>
    match constructL fs l with
    | .ok vl => .ok (.vseq vl)
    | .error e => .error e
  | .mapN m =>
    match constructP fs m with
    | .ok ps => .ok (.vmap (orderedDictOfPairs ps))
    | .error e => .error e
  | .frozensetN l =>
    match constructL fs l with
    | .ok vl => .ok (.vset vl)
    | .error e => .error e
  | .ndN blob => .ok (.varray blob.array)
  | .extN p =>
    match findFile fs p with
    | some blob => .ok (.varray blob.array)
    | none => .error (.ioError p)

/-- Constructs the items of a sequence (or set) node, left to right,
propagating the first exception. -/
def constructL (fs : List (String × Npz)) : NList → Except PyErr VList
  | .nil => .ok .nil
  | .cons n t =>
    match constructV fs n with
    | .error e => .error e
    | .ok v =>
      match constructL fs t with
      | .ok vt => .ok (.cons v vt)
      | .error e => .error e

/-- Constructs the pairs of a mapping node in source order
(`construct_pairs`), propagating the first exception. -/
def constructP (fs : List (String × Npz)) : NPairs → Except PyErr VPairs
  | .nil => .ok .nil
  | .cons k n t =>
    match constructV fs n with
    | .error e => .error e
    | .ok v =>
      match constructP fs t with
      | .ok vt => .ok (.cons k v vt)
      | .error e => .error e
end

/-- `ordered_load` after parsing (config.py lines 117-120): `yaml.load`
returns `None` for an empty stream, which is mapped to an empty
`OrderedDict`; otherwise the parsed root node is constructed. -/
def orderedLoad (fs : List (String × Npz)) : Option Node → Except PyErr Value
  | none => .ok (.vmap .nil)
  | some n => constructV fs n

/-- A filesystem of config files as the `load` facade sees it: `none` when
`os.path.isfile` is false, otherwise the parse result of the file's text
(`none` inside for an empty file, for which `yaml.load` returns `None`). -/
def ConfigFs := String → Option (Option Node)

/-- The `load` facade (config.py lines 212-226): an existing file is
parsed with `ordered_load`; a missing path returns an empty `OrderedDict`
when `ignore_missing` is set and otherwise raises `FileNotFoundError`
with a message naming the path. -/
def load (fsys : ConfigFs) (store : List (String × Npz)) (file_path : String)
    (ignore_missing : Bool) : Except PyErr Value :=
  match fsys file_path with
  | some content => orderedLoad store content
  | none =>
    if ignore_missing then .ok (.vmap .nil)
    else .error (.fileNotFound
      ("Could not load config file \"" ++ file_path ++ "\". File not found"))

/-! ### Width canonicalization and the round-trip side conditions -/

mutual
/-- The width canonicalization a dump-then-load round trip performs on
numbers: every integer width collapses to the Python `int` the loader
produces, every float width to the Python `float`; the numeric value and
everything else is untouched. -/
def canon : Value → Value
  | .vnull => .vnull
  | .vbool b => .vbool b
  | .vint _ n => .vint .py n
  | .vfloat _ q => .vfloat .f64 q
  | .vstr s => .vstr s
  | .vseq l => .vseq (canonL l)
  | .vmap m => .vmap (canonP m)
  | .vset l => .vset (canonL l)
  | .varray a => .varray a

/-- Canonicalizes a value list. -/
def canonL : VList → VList
  | .nil => .nil
  | .cons v t => .cons (canon v) (canonL t)

/-- Canonicalizes a pair list. -/
def canonP : VPairs → VPairs
  | .nil => .nil
  | .cons k v t => .cons k (canon v) (canonP t)
end

mutual
/-- A value is round-trippable when no string scalar in it begins with
`array(` (such strings are rewritten by the `construct_str` heuristic on
load) and every mapping has distinct keys (true of every real
`OrderedDict`). -/
def goodV : Value → Bool
  | .vnull => true
  | .vbool _ => true
  | .vint _ _ => true
  | .vfloat _ _ => true
  | .vstr s => !(listStarts arrLitChars s.data)
  | .vseq l => goodL l
  | .vmap m => nodupKeysB m && goodP m
  | .vset l => goodL l
  | .varray _ => true

/-- Round-trippability of a value list. -/
def goodL : VList → Bool
  | .nil => true
  | .cons v t => goodV v && goodL t

/-- Round-trippability of a pair list. -/
def goodP : VPairs → Bool
  | .nil => true
  | .cons _ v t => goodV v && goodP t
end

/-- The dump environment of `yaml.dump(data, None, ...)` or a dump to an
in-memory stream: `stream.name` does not exist, so every externalization
attempt fails into the inline fallback. -/
def inlineEnv : DEnv := ⟨none, fun _ => false⟩

/-- The dump environment of a dump to a named file whose directory is
writable: every external array write succeeds. -/
def extEnv (nm : String) : DEnv := ⟨some nm, fun _ => true⟩

/-! ### The scalar resolver (claim C1)

`ordered_load` relies on the implicit resolver of the base YAML library
to decide which tag a plain scalar carries.  The module docstring
(config.py line 10) says a fix for scientific-notation floats "is applied
globally at module import", and `re` is imported for that regex — but the
module body (lines 34-39) consists of imports only: no
`add_implicit_resolver` call exists, so the patch list installed by this
module is empty and plain scalars are resolved by the base grammar
alone. -/

/-- YAML core scalar tags, abbreviated. -/
inductive YTag where
  | tnull | tbool | tint | tfloat | tstr
deriving DecidableEq, Repr

/-- The implicit-resolver patches the module-level code of
`src/core/config.py` installs: none.  The module body holds only imports
(the `re` import is unused), despite the docstring's statement that the
scientific-notation fix is applied at import. -/
def moduleResolverPatches : List (YTag × (String → Bool)) := []

/-- Consumes an optional leading sign. -/
def dropSign : List Char → List Char
  | '+' :: r => r
  | '-' :: r => r
  | l => l

/-- Models the float rule of the base YAML 1.1 grammar on decimal
literals (the rule the spec describes as requiring "an explicit decimal
point or sign before the exponent marker"): an optional sign, then either
`digits . digits* [exponent]` or `. digits [exponent]`.  A bare
`digits exponent` form such as `1e10` is NOT matched.  (The sexagesimal,
infinity and not-a-number alternatives of the base rule are irrelevant to
the scalars considered here and are omitted.) -/
def baseFloatMatch (s : String) : Bool :=
  let l := dropSign s.data
  let ds := l.takeWhile Char.isDigit
  let r1 := l.dropWhile Char.isDigit
  match r1 with
  | '.' :: r2 =>
    let fs := r2.takeWhile Char.isDigit
    let r3 := r2.dropWhile Char.isDigit
    (!(ds = [] && fs = [])) &&
      (match r3 with
       | [] => true
       | e :: r4 =>
         (e = 'e' || e = 'E') &&
           (let r5 := dropSign r4
            r5 ≠ [] && r5.all Char.isDigit))
  | _ => false

/-- Models the int rule of the base grammar on decimal literals: an
optional sign then digits only. -/
def baseIntMatch (s : String) : Bool :=
  let l := dropSign s.data
  l ≠ [] && l.all Char.isDigit

/-- Base-grammar implicit resolution of a plain scalar into a core tag:
null and bool word forms, then int, then float, falling through to str. -/
def baseResolve (s : String) : YTag :=
  if s = "" || s = "~" || s = "null" || s = "Null" || s = "NULL" then .tnull
  else if s = "true" || s = "True" || s = "TRUE" || s = "false" || s = "False"
       || s = "FALSE" then .tbool
  else if baseIntMatch s then .tint
  else if baseFloatMatch s then .tfloat
  else .tstr

/-- Resolution of a plain scalar under a patch list: the first patch whose
regex matches wins, otherwise the base grammar resolves. -/
def resolveScalar (patches : List (YTag × (String → Bool))) (s : String) : YTag :=
  match patches.find? (fun p => p.2 s) with
  | some p => p.1
  | none => baseResolve s

/-- Modelled from the spec: the float pattern the missing resolver patch
would install — optional sign, integer part, optional fractional part,
exponent marker, optional sign, exponent digits — which recognizes
`1e10`. -/
def specPatchFloatMatch (s : String) : Bool :=
  let l := dropSign s.data
  let ds := l.takeWhile Char.isDigit
  let r1 := l.dropWhile Char.isDigit
  let afterFrac : Option (List Char) :=
    match r1 with
    | '.' :: r2 => some (r2.dropWhile Char.isDigit)
    | _ => some r1
  match ds, afterFrac with
  | [], _ => false
  | _, some (e :: r4) =>
    (e = 'e' || e = 'E') &&
      (let r5 := dropSign r4
       r5 ≠ [] && r5.all Char.isDigit)
  | _, _ => false

/-! ## Lemmas

### Injectivity of the external-file naming -/

theorem undigits_natDigitsF : ∀ fuel n, n < fuel → undigits (natDigitsF fuel n) = n := by
  intro fuel
  induction fuel with
  | zero => intro n h; omega
  | succ f ih =>
    intro n h
    match n with
    | 0 => simp [natDigitsF, undigits]
    | m + 1 =>
      have hd : (m + 1) / 10 < f := by
        have h1 : (m + 1) / 10 < m + 1 := Nat.div_lt_self (Nat.succ_pos m) (by norm_num)
        omega
      have := ih ((m + 1) / 10) hd
      simp only [natDigitsF, undigits, List.foldr] at this ⊢
      rw [this]
      exact Nat.mod_add_div (m + 1) 10

theorem undigits_digitsOf (n : Nat) : undigits (digitsOf n) = n :=
  undigits_natDigitsF (n + 1) n (Nat.lt_succ_self n)

theorem natDigitsF_lt10 : ∀ fuel n d, d ∈ natDigitsF fuel n → d < 10 := by
  intro fuel
  induction fuel with
  | zero => intro n d h; simp [natDigitsF] at h
  | succ f ih =>
    intro n d h
    match n with
    | 0 => simp [natDigitsF] at h
    | m + 1 =>
      simp only [natDigitsF, List.mem_cons] at h
      rcases h with h | h
      · subst h; exact Nat.mod_lt _ (by norm_num)
      · exact ih _ _ h

theorem undigits_append_zeros (l : List Nat) (k : Nat) :
    undigits (l ++ List.replicate k 0) = undigits l := by
  induction l with
  | nil =>
    simp only [List.nil_append, undigits]
    induction k with
    | zero => simp
    | succ j ihk => simpa [List.replicate_succ] using ihk
  | cons d t ih =>
    simp only [List.cons_append, undigits, List.foldr, List.append_eq] at ih ⊢
    rw [ih]

theorem undigits_padDigits6 (n : Nat) : undigits (padDigits6 n) = n := by
  rw [padDigits6, undigits_append_zeros, undigits_digitsOf]

theorem padDigits6_lt10 (n d : Nat) (h : d ∈ padDigits6 n) : d < 10 := by
  simp only [padDigits6, List.mem_append] at h
  rcases h with h | h
  · exact natDigitsF_lt10 _ _ _ h
  · have := List.eq_of_mem_replicate h
    omega

theorem digitCh_inj : ∀ a < 10, ∀ b < 10, digitCh a = digitCh b → a = b := by decide

theorem mapDigitCh_inj : ∀ (l1 l2 : List Nat), (∀ d ∈ l1, d < 10) → (∀ d ∈ l2, d < 10) →
    l1.map digitCh = l2.map digitCh → l1 = l2 := by
  intro l1
  induction l1 with
  | nil => intro l2 _ _ h; cases l2 <;> simp_all
  | cons a t ih =>
    intro l2 h1 h2 h
    cases l2 with
    | nil => simp at h
    | cons b u =>
      simp only [List.map_cons, List.cons.injEq] at h
      have ha : a = b := digitCh_inj a (h1 a (by simp)) b (h2 b (by simp)) h.1
      have ht : t = u := ih u (fun d hd => h1 d (by simp [hd])) (fun d hd => h2 d (by simp [hd])) h.2
      rw [ha, ht]

theorem pad6Str_inj (a b : Nat) (h : pad6Str a = pad6Str b) : a = b := by
  have hdata : (((padDigits6 a).map digitCh).reverse) = (((padDigits6 b).map digitCh).reverse) :=
    congrArg String.data h
  have hmap := List.reverse_injective hdata
  have hdig := mapDigitCh_inj _ _ (padDigits6_lt10 a) (padDigits6_lt10 b) hmap
  have := congrArg undigits hdig
  rwa [undigits_padDigits6, undigits_padDigits6] at this

theorem extPath_inj (nm : String) (a b : Nat) (h : extPath nm a = extPath nm b) : a = b := by
  apply pad6Str_inj
  have hd : (pathJoin (dirname nm) (stripExt (basename nm)) ++ "-").data ++
      ((pad6Str a).data ++ (".npz" : String).data) =
      (pathJoin (dirname nm) (stripExt (basename nm)) ++ "-").data ++
      ((pad6Str b).data ++ (".npz" : String).data) := by
    have h2 := congrArg String.data h
    simp only [extPath, String.data_append, List.append_assoc] at h2
    simpa [String.data_append, List.append_assoc] using h2
  have h3 := List.append_cancel_left hd
  have h4 : (pad6Str a).data = (pad6Str b).data := List.append_cancel_right h3
  cases pa : pad6Str a
  cases pb : pad6Str b
  rw [pa, pb] at h4
  simp only at h4
  rw [h4]

/-! ### The list of external files written by a dump -/

theorem enumFiles_append (nm : String) : ∀ (l1 l2 : List NDArr) (c : Nat),
    enumFiles nm c (l1 ++ l2) = enumFiles nm c l1 ++ enumFiles nm (c + l1.length) l2 := by
  intro l1
  induction l1 with
  | nil => intro l2 c; simp [enumFiles]
  | cons a t ih =>
    intro l2 c
    simp only [List.cons_append, enumFiles, List.length_cons, List.append_eq]
    rw [ih l2 (c + 1)]
    have : c + 1 + t.length = c + (t.length + 1) := by omega
    rw [this]

theorem mem_enumFiles_keys (nm : String) : ∀ (l : List NDArr) (c : Nat) (p : String),
    p ∈ (enumFiles nm c l).map Prod.fst → ∃ i, c ≤ i ∧ i < c + l.length ∧ p = extPath nm i := by
  intro l
  induction l with
  | nil => intro c p h; simp [enumFiles] at h
  | cons a t ih =>
    intro c p h
    simp only [enumFiles, List.map_cons, List.mem_cons] at h
    rcases h with h | h
    · exact ⟨c, Nat.le_refl c, by simp, h⟩
    · obtain ⟨i, h1, h2, h3⟩ := ih (c + 1) p h
      exact ⟨i, by omega, by simp only [List.length_cons]; omega, h3⟩

theorem enumFiles_keys_nodup (nm : String) : ∀ (l : List NDArr) (c : Nat),
    ((enumFiles nm c l).map Prod.fst).Nodup := by
  intro l
  induction l with
  | nil => intro c; simp [enumFiles]
  | cons a t ih =>
    intro c
    simp only [enumFiles, List.map_cons, List.nodup_cons]
    refine ⟨fun hmem => ?_, ih (c + 1)⟩
    obtain ⟨i, h1, _, h3⟩ := mem_enumFiles_keys nm t (c + 1) _ hmem
    have := extPath_inj nm c i h3
    omega

theorem enumFiles_get (nm : String) : ∀ (l : List NDArr) (c k : Nat) (hk : k < l.length),
    (enumFiles nm c l)[k]? = some (extPath nm (c + k), ⟨l[k]⟩) := by
  intro l
  induction l with
  | nil => intro c k hk; simp at hk
  | cons a t ih =>
    intro c k hk
    cases k with
    | zero => simp [enumFiles]
    | succ j =>
      have hj : j < t.length := by simpa using hk
      simp only [enumFiles, List.getElem?_cons_succ, List.getElem_cons_succ]
      rw [ih (c + 1) j hj]
      have : c + 1 + j = c + (j + 1) := by omega
      rw [this]

theorem findFile_of_nodup : ∀ (fs : List (String × Npz)) (p : String) (b : Npz),
    ((fs.map Prod.fst).Nodup) → (p, b) ∈ fs → findFile fs p = some b := by
  intro fs
  induction fs with
  | nil => intro p b _ h; simp at h
  | cons e t ih =>
    intro p b hnd hmem
    simp only [List.map_cons, List.nodup_cons] at hnd
    simp only [List.mem_cons] at hmem
    rcases hmem with h | h
    · subst h; simp [findFile, List.find?]
    · have hne : e.1 ≠ p := by
        intro hcon
        exact hnd.1 (hcon ▸ (List.mem_map.mpr ⟨(p, b), h, rfl⟩))
      have := ih p b hnd.2 h
      have hdec : (decide (e.1 = p)) = false := by simp [hne]
      simp only [findFile, List.find?] at this ⊢
      rw [hdec]
      exact this

/-! ### Dumps that never externalize write no files -/

mutual
theorem fwNilV (env : DEnv) (h : ∀ p, env.streamName = none ∨ env.writeOk p = false)
    (v : Value) (c : Nat) : (repV env v c).2.1 = c ∧ (repV env v c).2.2 = [] := by
  cases v with
  | vnull => simp [repV]
  | vbool b => simp [repV]
  | vint w n => simp [repV]
  | vfloat w q => simp [repV]
  | vstr s => simp [repV]
  | vseq l => simpa [repV] using fwNilL env h l c
  | vmap m => simpa [repV] using fwNilP env h m c
  | vset l => simpa [repV] using fwNilL env h l c
  | varray a =>
    cases heq : env.streamName with
    | none => simp [repV, heq]
    | some nm =>
      have hw := h (extPath nm c)
      rw [heq] at hw
      simp only [reduceCtorEq, false_or] at hw
      simp [repV, heq, hw]

theorem fwNilL (env : DEnv) (h : ∀ p, env.streamName = none ∨ env.writeOk p = false)
    (l : VList) (c : Nat) : (repL env l c).2.1 = c ∧ (repL env l c).2.2 = [] := by
  cases l with
  | nil => simp [repL]
  | cons v t =>
    have h1 := fwNilV env h v c
    simp only [repL, h1.1, h1.2]
    have h2 := fwNilL env h t c
    simp [h2.1, h2.2]

theorem fwNilP (env : DEnv) (h : ∀ p, env.streamName = none ∨ env.writeOk p = false)
    (m : VPairs) (c : Nat) : (repP env m c).2.1 = c ∧ (repP env m c).2.2 = [] := by
  cases m with
  | nil => simp [repP]
  | cons k v t =>
    have h1 := fwNilV env h v c
    simp only [repP, h1.1, h1.2]
    have h2 := fwNilP env h t c
    simp [h2.1, h2.2]
end

/-! ### Dumps to a writable named file externalize every array, in order -/

mutual
theorem fwExtV (nm : String) (v : Value) (c : Nat) :
    (repV (extEnv nm) v c).2.1 = c + (arraysOf v).length ∧
    (repV (extEnv nm) v c).2.2 = enumFiles nm c (arraysOf v) ∧
    extRefs (repV (extEnv nm) v c).1 = (enumFiles nm c (arraysOf v)).map Prod.fst := by
  cases v with
  | vnull => simp [repV, arraysOf, enumFiles, extRefs]
  | vbool b => simp [repV, arraysOf, enumFiles, extRefs]
  | vint w n => simp [repV, arraysOf, enumFiles, extRefs]
  | vfloat w q => simp [repV, arraysOf, enumFiles, extRefs]
  | vstr s => simp [repV, arraysOf, enumFiles, extRefs]
  | vseq l => simpa [repV, arraysOf, extRefs] using fwExtL nm l c
  | vmap m => simpa [repV, arraysOf, extRefs] using fwExtP nm m c
  | vset l => simpa [repV, arraysOf, extRefs] using fwExtL nm l c
  | varray a => simp [repV, extEnv, arraysOf, enumFiles, extRefs]

theorem fwExtL (nm : String) (l : VList) (c : Nat) :
    (repL (extEnv nm) l c).2.1 = c + (arraysOfL l).length ∧
    (repL (extEnv nm) l c).2.2 = enumFiles nm c (arraysOfL l) ∧
    extRefsL (repL (extEnv nm) l c).1 = (enumFiles nm c (arraysOfL l)).map Prod.fst := by
  cases l with
  | nil => simp [repL, arraysOfL, enumFiles, extRefsL]
  | cons v t =>
    obtain ⟨hc1, hf1, hr1⟩ := fwExtV nm v c
    obtain ⟨hc2, hf2, hr2⟩ := fwExtL nm t ((repV (extEnv nm) v c).2.1)
    rw [hc1] at hc2 hf2 hr2
    simp only [repL, extRefsL, arraysOfL, hc1, hc2, hf1, hf2, hr1, hr2,
      enumFiles_append, List.length_append, List.map_append]
    exact ⟨by omega, trivial, trivial⟩

theorem fwExtP (nm : String) (m : VPairs) (c : Nat) :
    (repP (extEnv nm) m c).2.1 = c + (arraysOfP m).length ∧
    (repP (extEnv nm) m c).2.2 = enumFiles nm c (arraysOfP m) ∧
    extRefsP (repP (extEnv nm) m c).1 = (enumFiles nm c (arraysOfP m)).map Prod.fst := by
  cases m with
  | nil => simp [repP, arraysOfP, enumFiles, extRefsP]
  | cons k v t =>
    obtain ⟨hc1, hf1, hr1⟩ := fwExtV nm v c
    obtain ⟨hc2, hf2, hr2⟩ := fwExtP nm t ((repV (extEnv nm) v c).2.1)
    rw [hc1] at hc2 hf2 hr2
    simp only [repP, extRefsP, arraysOfP, hc1, hc2, hf1, hf2, hr1, hr2,
      enumFiles_append, List.length_append, List.map_append]
    exact ⟨by omega, trivial, trivial⟩
end

/-! ### OrderedDict construction from raw pairs -/

theorem keysOf_odInsert (m : VPairs) (k : String) (v : Value) :
    keysOf (odInsert m k v) =
      if k ∈ keysOf m then keysOf m else keysOf m ++ [k] := by
  cases m with
  | nil => simp [odInsert, keysOf]
  | cons k0 v0 t =>
    by_cases hk : k0 = k
    · subst hk
      simp [odInsert, keysOf]
    · have ih := keysOf_odInsert t k v
      by_cases hmem : k ∈ keysOf t
      · simp [odInsert, hk, keysOf, ih, hmem, Ne.symm hk]
      · simp [odInsert, hk, keysOf, ih, hmem, Ne.symm hk]

theorem findVP_odInsert_self (m : VPairs) (k : String) (v : Value) :
    findVP (odInsert m k v) k = some v := by
  cases m with
  | nil => simp [odInsert, findVP]
  | cons k0 v0 t =>
    by_cases hk : k0 = k
    · subst hk; simp [odInsert, findVP]
    · simp [odInsert, hk, findVP, findVP_odInsert_self t k v]

theorem findVP_odInsert_other (m : VPairs) (k x : String) (v : Value) (hx : x ≠ k) :
    findVP (odInsert m k v) x = findVP m x := by
  have hkx : ¬ k = x := fun hc => hx hc.symm
  cases m with
  | nil => simp [odInsert, findVP, hkx]
  | cons k0 v0 t =>
    by_cases hk : k0 = k
    · subst hk
      simp [odInsert, findVP, hkx]
    · by_cases hx0 : k0 = x
      · subst hx0; simp [odInsert, hk, findVP]
      · simp [odInsert, hk, findVP, hx0, findVP_odInsert_other t k x v hx]

theorem firstGo_congr (l : List String) : ∀ (s1 s2 : List String),
    (∀ a, a ∈ s1 ↔ a ∈ s2) → firstGo s1 l = firstGo s2 l := by
  induction l with
  | nil => intro s1 s2 _; rfl
  | cons k t ih =>
    intro s1 s2 h
    by_cases hk : k ∈ s1
    · have hk2 : k ∈ s2 := (h k).mp hk
      simp [firstGo, hk, hk2, ih s1 s2 h]
    · have hk2 : k ∉ s2 := fun hc => hk ((h k).mpr hc)
      have hcons : ∀ a, a ∈ k :: s1 ↔ a ∈ k :: s2 := by
        intro a; simp [h a]
      simp [firstGo, hk, hk2, ih (k :: s1) (k :: s2) hcons]

theorem oodGo_keys (ps : VPairs) : ∀ (acc : VPairs),
    keysOf (oodGo acc ps) = keysOf acc ++ firstGo (keysOf acc) (keysOf ps) := by
  cases ps with
  | nil => intro acc; simp [oodGo, keysOf, firstGo]
  | cons k v t =>
    intro acc
    by_cases hmem : k ∈ keysOf acc
    · have hkeys : keysOf (odInsert acc k v) = keysOf acc := by
        simp [keysOf_odInsert, hmem]
      simp only [oodGo, keysOf, firstGo, hmem, if_true]
      rw [oodGo_keys t (odInsert acc k v), hkeys]
    · have hkeys : keysOf (odInsert acc k v) = keysOf acc ++ [k] := by
        simp [keysOf_odInsert, hmem]
      simp only [oodGo, keysOf, firstGo, hmem, if_false]
      rw [oodGo_keys t (odInsert acc k v), hkeys]
      rw [firstGo_congr (keysOf t) (keysOf acc ++ [k]) (k :: keysOf acc) (by intro a; simp; tauto)]
      simp

theorem oodGo_find (ps : VPairs) : ∀ (acc : VPairs) (x : String),
    findVP (oodGo acc ps) x =
      match lastVP ps x with
      | some w => some w
      | none => findVP acc x := by
  cases ps with
  | nil => intro acc x; simp [oodGo, lastVP]
  | cons k v t =>
    intro acc x
    rw [show oodGo acc (.cons k v t) = oodGo (odInsert acc k v) t from rfl]
    rw [oodGo_find t (odInsert acc k v) x]
    cases hlast : lastVP t x with
    | some w => simp [lastVP, hlast]
    | none =>
      by_cases hx : x = k
      · subst hx
        simp [lastVP, hlast, findVP_odInsert_self]
      · have hkx : ¬ k = x := fun hc => hx hc.symm
        simp [lastVP, hlast, hkx, findVP_odInsert_other acc k x v hx]

theorem firstGo_nodup (l : List String) : ∀ (seen : List String),
    (firstGo seen l).Nodup ∧ ∀ x ∈ firstGo seen l, x ∉ seen := by
  induction l with
  | nil => intro seen; simp [firstGo]
  | cons k t ih =>
    intro seen
    by_cases hk : k ∈ seen
    · simpa [firstGo, hk] using ih seen
    · obtain ⟨hnd, hout⟩ := ih (k :: seen)
      refine ⟨?_, ?_⟩
      · simp only [firstGo, hk, if_false, List.nodup_cons]
        exact ⟨fun hc => (hout k hc) (by simp), hnd⟩
      · intro x hx
        simp only [firstGo, hk, if_false, List.mem_cons] at hx
        rcases hx with h | h
        · subst h; exact hk
        · exact fun hc => (hout x h) (by simp [hc])

theorem odInsert_not_mem (m : VPairs) (k : String) (v : Value) (h : k ∉ keysOf m) :
    odInsert m k v = appendP m (.cons k v .nil) := by
  cases m with
  | nil => rfl
  | cons k0 v0 t =>
    simp only [keysOf, List.mem_cons] at h
    push_neg at h
    simp only [odInsert, Ne.symm h.1, if_false, appendP]
    rw [odInsert_not_mem t k v h.2]

theorem appendP_assoc (a b cp : VPairs) : appendP (appendP a b) cp = appendP a (appendP b cp) := by
  cases a with
  | nil => rfl
  | cons k v t => simp only [appendP]; rw [appendP_assoc t b cp]

theorem appendP_nil (a : VPairs) : appendP a .nil = a := by
  cases a with
  | nil => rfl
  | cons k v t => simp only [appendP]; rw [appendP_nil t]

theorem keysOf_appendP (a b : VPairs) : keysOf (appendP a b) = keysOf a ++ keysOf b := by
  cases a with
  | nil => rfl
  | cons k v t => simp only [appendP, keysOf]; rw [keysOf_appendP t b]; rfl

theorem oodGo_append_of_disjoint (ps : VPairs) : ∀ (acc : VPairs),
    (∀ k, k ∈ keysOf ps → k ∉ keysOf acc) → nodupB (keysOf ps) = true →
    oodGo acc ps = appendP acc ps := by
  cases ps with
  | nil =>
    intro acc _ _
    rw [appendP_nil]
    rfl
  | cons k v t =>
    intro acc hdisj hnd
    have hk : k ∉ keysOf acc := hdisj k (by simp [keysOf])
    simp only [keysOf, nodupB, Bool.and_eq_true, Bool.not_eq_true'] at hnd
    have hknt : k ∉ keysOf t := by
      intro hc
      have hcc : (keysOf t).contains k = true := by simpa using hc
      rw [hnd.1] at hcc
      exact Bool.false_ne_true hcc
    show oodGo (odInsert acc k v) t = appendP acc (.cons k v t)
    rw [odInsert_not_mem acc k v hk]
    rw [oodGo_append_of_disjoint t (appendP acc (.cons k v .nil)) ?hdis hnd.2]
    · rw [appendP_assoc]; rfl
    · intro x hx
      have hxacc : x ∉ keysOf acc := hdisj x (by simp [keysOf, hx])
      have hxk : x ≠ k := fun hc => hknt (hc ▸ hx)
      intro hc
      rw [keysOf_appendP] at hc
      simp only [List.mem_append, keysOf, List.mem_cons, List.not_mem_nil, or_false] at hc
      rcases hc with h | h
      · exact hxacc h
      · exact hxk h

theorem ood_id_of_nodup (ps : VPairs) (h : nodupKeysB ps = true) :
    orderedDictOfPairs ps = ps := by
  rw [orderedDictOfPairs, oodGo_append_of_disjoint ps .nil (by simp [keysOf]) h]
  rfl

/-! ### The dump-then-load round trip -/

theorem construct_str_plain (s : String) (h : listStarts arrLitChars s.data = false) :
    construct_str s = .ok (.vstr s) := by
  simp [construct_str, h]

theorem keysOf_canonP (m : VPairs) : keysOf (canonP m) = keysOf m := by
  cases m with
  | nil => rfl
  | cons k v t => simp only [canonP, keysOf]; rw [keysOf_canonP t]

mutual
theorem rtV (env : DEnv) (fs : List (String × Npz)) (v : Value) (c : Nat)
    (hg : goodV v = true)
    (hres : ∀ p b, (p, b) ∈ (repV env v c).2.2 → findFile fs p = some b) :
    constructV fs (repV env v c).1 = .ok (canon v) := by
  cases v with
  | vnull => simp [repV, constructV, canon]
  | vbool b => simp [repV, constructV, canon]
  | vint w n => simp [repV, constructV, canon]
  | vfloat w q => simp [repV, constructV, canon]
  | vstr s =>
    have hs : listStarts arrLitChars s.data = false := by
      simpa [goodV] using hg
    simp [repV, constructV, canon, construct_str_plain s hs]
  | vseq l =>
    have hg2 : goodL l = true := by simpa [goodV] using hg
    have h1 := rtL env fs l c hg2 (by simpa [repV] using hres)
    simp only [repV, constructV]
    rw [h1]
    simp [canon]
  | vmap m =>
    have hg2 : nodupKeysB m = true ∧ goodP m = true := by
      simpa [goodV] using hg
    have h1 := rtP env fs m c hg2.2 (by simpa [repV] using hres)
    simp only [repV, constructV]
    rw [h1]
    have hnd : nodupKeysB (canonP m) = true := by
      simpa [nodupKeysB, keysOf_canonP] using hg2.1
    simp [canon, ood_id_of_nodup (canonP m) hnd]
  | vset l =>
    have hg2 : goodL l = true := by simpa [goodV] using hg
    have h1 := rtL env fs l c hg2 (by simpa [repV] using hres)
    simp only [repV, constructV]
    rw [h1]
    simp [canon]
  | varray a =>
    cases heq : env.streamName with
    | none => simp [repV, heq, constructV, canon]
    | some nm =>
      by_cases hw : env.writeOk (extPath nm c) = true
      · have hmem : (extPath nm c, (⟨a⟩ : Npz)) ∈ (repV env (.varray a) c).2.2 := by
          simp [repV, heq, hw]
        have hff := hres _ _ hmem
        simp [repV, heq, hw, constructV, hff, canon]
      · simp [repV, heq, hw, constructV, canon]

theorem rtL (env : DEnv) (fs : List (String × Npz)) (l : VList) (c : Nat)
    (hg : goodL l = true)
    (hres : ∀ p b, (p, b) ∈ (repL env l c).2.2 → findFile fs p = some b) :
    constructL fs (repL env l c).1 = .ok (canonL l) := by
  cases l with
  | nil => simp [repL, constructL, canonL]
  | cons v t =>
    have hgv : goodV v = true ∧ goodL t = true := by simpa [goodL] using hg
    have hres1 : ∀ p b, (p, b) ∈ (repV env v c).2.2 → findFile fs p = some b := by
      intro p b h
      refine hres p b ?_
      simp only [repL, List.mem_append]
      exact Or.inl h
    have hres2 : ∀ p b, (p, b) ∈ (repL env t (repV env v c).2.1).2.2 →
        findFile fs p = some b := by
      intro p b h
      refine hres p b ?_
      simp only [repL, List.mem_append]
      exact Or.inr h
    have h1 := rtV env fs v c hgv.1 hres1
    have h2 := rtL env fs t (repV env v c).2.1 hgv.2 hres2
    simp only [repL, constructL]
    rw [h1, h2]
    simp [canonL]

theorem rtP (env : DEnv) (fs : List (String × Npz)) (m : VPairs) (c : Nat)
    (hg : goodP m = true)
    (hres : ∀ p b, (p, b) ∈ (repP env m c).2.2 → findFile fs p = some b) :
    constructP fs (repP env m c).1 = .ok (canonP m) := by
  cases m with
  | nil => simp [repP, constructP, canonP]
  | cons k v t =>
    have hgv : goodV v = true ∧ goodP t = true := by simpa [goodP] using hg
    have hres1 : ∀ p b, (p, b) ∈ (repV env v c).2.2 → findFile fs p = some b := by
      intro p b h
      refine hres p b ?_
      simp only [repP, List.mem_append]
      exact Or.inl h
    have hres2 : ∀ p b, (p, b) ∈ (repP env t (repV env v c).2.1).2.2 →
        findFile fs p = some b := by
      intro p b h
      refine hres p b ?_
      simp only [repP, List.mem_append]
      exact Or.inr h
    have h1 := rtV env fs v c hgv.1 hres1
    have h2 := rtP env fs t (repV env v c).2.1 hgv.2 hres2
    simp only [repP, constructP]
    rw [h1, h2]
    simp [canonP]
end

/-- A sample document exercising every supported value kind, used by the
C3 witness. -/
def sampleDoc : Value :=
  .vmap (.cons "a" .vnull
    (.cons "b" (.vbool true)
      (.cons "c" (.vint .i32 5)
        (.cons "d" (.vfloat .f32 (5 : Rat))
          (.cons "e" (.vstr "hello")
            (.cons "f" (.vseq (.cons (.vint .py 1) (.cons (.vstr "x") .nil)))
              (.cons "g" (.vset (.cons (.vint .py 1) (.cons (.vint .py 2) .nil)))
                (.cons "h" (.varray ⟨[2], true, [1, 2]⟩) .nil))))))))

/-- A two-array document used by the C6 witness. -/
def arrayDoc : Value :=
  .vmap (.cons "a" (.varray ⟨[2], true, [1, 2]⟩)
    (.cons "b" (.varray ⟨[3], false, [1, 2, 7]⟩) .nil))

/-! ## Claim theorems -/

/-- Claim C1: the claim states the scalar resolver patch is active
process-wide before any load, so `1e10` resolves as a float.  The code
does not install any patch: the module body of `src/core/config.py` holds
only imports (`moduleResolverPatches = []`), contradicting the module
docstring, and the plain scalar `1e10` therefore resolves under the base
grammar to the string tag and loads as the string value `"1e10"`, while
the patch pattern described by the spec would have matched it. -/
theorem c1_resolver_patch_missing :
    moduleResolverPatches = [] ∧
    resolveScalar moduleResolverPatches "1e10" = YTag.tstr ∧
    specPatchFloatMatch "1e10" = true ∧
    baseFloatMatch "1e10" = false ∧
    construct_str "1e10" = .ok (.vstr "1e10") :=
  ⟨rfl, by decide, by decide, by decide, by decide⟩

/-- Claim C2: the claim states the `construct_str` evaluation can reach
only the fixed allow-listed vocabulary.  The explicit globals dict is
exactly the allow-list, but CPython injects the builtins module into a
globals mapping that lacks a `__builtins__` key, so names such as
`__import__` resolve during the `eval` call: arbitrary code outside the
allow-list is reachable. -/
theorem c2_eval_reaches_builtins :
    evalAllowList = ["array", "int8", "uint8", "int16", "uint16", "float16",
      "int32", "uint32", "float32", "int64", "uint64", "float64"] ∧
    "__import__" ∈ evalReachableNames ∧ "__import__" ∉ evalAllowList ∧
    "open" ∈ evalReachableNames ∧ "open" ∉ evalAllowList :=
  ⟨rfl, by decide, by decide, by decide, by decide⟩

/-- Claim C3 (counterexample): the document `{"k": "array([1, 2, 3])"}` is
built only from supported scalar and mapping values, yet loading its dump
yields `{"k": array([1, 2, 3])}` — the string value comes back as an
array, which differs from the original even after width
canonicalization. -/
theorem c3_roundtrip_counterexample :
    constructV [] (repV inlineEnv (.vmap (.cons "k" (.vstr "array([1, 2, 3])") .nil)) 0).1
      = .ok (.vmap (.cons "k" (.varray ⟨[3], true, [1, 2, 3]⟩) .nil)) ∧
    canon (Value.vmap (.cons "k" (.varray ⟨[3], true, [1, 2, 3]⟩) .nil))
      ≠ canon (Value.vmap (.cons "k" (.vstr "array([1, 2, 3])") .nil)) :=
  ⟨by decide, by decide⟩

/-- Claim C3 (amended): for every document built from supported values in
which no string scalar begins with `array(` (such strings are rewritten
by the loader heuristic) — mappings having distinct keys, as every real
`OrderedDict` does — loading the dumped document returns the document
with structure, key order and values intact, numeric widths collapsing
to the loader's int/float (`canon`). -/
theorem c3_roundtrip (v : Value) (hg : goodV v = true) :
    constructV [] (repV inlineEnv v 0).1 = .ok (canon v) := by
  apply rtV inlineEnv [] v 0 hg
  intro p b hmem
  rw [(fwNilV inlineEnv (fun _ => Or.inl rfl) v 0).2] at hmem
  exact absurd hmem (List.not_mem_nil _)

/-- Witness for C3 on a document exercising every supported value kind. -/
theorem c3_roundtrip_witness :
    goodV sampleDoc = true ∧
    constructV [] (repV inlineEnv sampleDoc 0).1 = .ok (canon sampleDoc) :=
  ⟨by decide, c3_roundtrip sampleDoc (by decide)⟩

/-- Claim C4: on a path that is not a file, `load` with
`ignore_missing=true` returns the empty document and with
`ignore_missing=false` raises `FileNotFoundError` carrying the path in
its message; on an existing file neither branch is taken and the parsed
contents are loaded. -/
theorem c4_load_missing (fsys : ConfigFs) (store : List (String × Npz)) (p : String) :
    (fsys p = none →
      load fsys store p true = .ok (.vmap .nil) ∧
      load fsys store p false = .error (.fileNotFound
        ("Could not load config file \"" ++ p ++ "\". File not found"))) ∧
    (∀ content, fsys p = some content →
      ∀ ign, load fsys store p ign = orderedLoad store content) := by
  constructor
  · intro h
    constructor <;> simp [load, h]
  · intro content h ign
    simp [load, h]

/-- Witness for C4: a missing path under both flags, and an existing
file whose contents are loaded. -/
theorem c4_load_missing_witness :
    load (fun _ => none) [] "missing.cfg" true = .ok (.vmap .nil) ∧
    load (fun _ => none) [] "missing.cfg" false = .error (.fileNotFound
      ("Could not load config file \"" ++ "missing.cfg" ++ "\". File not found")) ∧
    load (fun _ => some (some (.intN 7))) [] "present.cfg" false = .ok (.vint .py 7) :=
  ⟨((c4_load_missing (fun _ => none) [] "missing.cfg").1 rfl).1,
   ((c4_load_missing (fun _ => none) [] "missing.cfg").1 rfl).2,
   ((c4_load_missing (fun _ => some (some (.intN 7))) [] "present.cfg").2
      (some (.intN 7)) rfl false).trans (by decide)⟩

/-- Claim C5: whenever externalization cannot happen — the destination
stream has no name, or the external write fails — `represent_ndarray`
falls back to the inline `!ndarray` node embedding the compressed blob,
leaves the counter untouched, writes no file, the blob decodes back to
the same array, and a dump in which every external write fails still
succeeds and round-trips. -/
theorem c5_externalization_fallback (a : NDArr) (c : Nat) (w : String → Bool)
    (nm : String) (v : Value) (hg : goodV v = true) :
    repV ⟨none, w⟩ (.varray a) c = (.ndN ⟨a⟩, c, []) ∧
    (w (extPath nm c) = false → repV ⟨some nm, w⟩ (.varray a) c = (.ndN ⟨a⟩, c, [])) ∧
    (∀ fs, constructV fs (.ndN ⟨a⟩) = .ok (.varray a)) ∧
    ((∀ q, w q = false) → constructV [] (repV ⟨some nm, w⟩ v 0).1 = .ok (canon v)) := by
  refine ⟨by simp [repV], fun hw => by simp [repV, hw], fun fs => by simp [constructV],
    fun hw => ?_⟩
  apply rtV ⟨some nm, w⟩ [] v 0 hg
  intro q b hmem
  rw [(fwNilV ⟨some nm, w⟩ (fun q => Or.inr (hw q)) v 0).2] at hmem
  exact absurd hmem (List.not_mem_nil _)

/-- Witness for C5 at a concrete array, document and always-failing
write environment. -/
theorem c5_externalization_fallback_witness :
    goodV (.vmap (.cons "x" (.varray ⟨[2], true, [1, 2]⟩) .nil)) = true ∧
    repV ⟨none, fun _ => false⟩ (.varray ⟨[2], true, [1, 2]⟩) 0
      = (.ndN ⟨⟨[2], true, [1, 2]⟩⟩, 0, []) ∧
    constructV []
        (repV ⟨some "cfg/test.cfg", fun _ => false⟩
          (.vmap (.cons "x" (.varray ⟨[2], true, [1, 2]⟩) .nil)) 0).1
      = .ok (canon (.vmap (.cons "x" (.varray ⟨[2], true, [1, 2]⟩) .nil))) :=
  ⟨by decide,
   (c5_externalization_fallback ⟨[2], true, [1, 2]⟩ 0 (fun _ => false) "cfg/test.cfg"
      (.vmap (.cons "x" (.varray ⟨[2], true, [1, 2]⟩) .nil)) (by decide)).1,
   (c5_externalization_fallback ⟨[2], true, [1, 2]⟩ 0 (fun _ => false) "cfg/test.cfg"
      (.vmap (.cons "x" (.varray ⟨[2], true, [1, 2]⟩) .nil)) (by decide)).2.2.2
     (fun _ => rfl)⟩

/-- Claim C6: dumping to a named destination whose writes succeed sends
the `k`-th externalized array (counting from 0 per dump call) to the
sibling file named from the destination base name, a dash, the 6-digit
zero-padded counter value and the fixed `.npz` extension; the array's
node becomes `!extndarray` wrapping exactly those filenames in order;
and loading the dumped document against the written files restores the
document — in particular every array with identical shape and values. -/
theorem c6_external_naming (v : Value) (nm : String) :
    (repV (extEnv nm) v 0).2.2 = enumFiles nm 0 (arraysOf v) ∧
    (∀ k, (hk : k < (arraysOf v).length) →
      (repV (extEnv nm) v 0).2.2[k]? = some
        (pathJoin (dirname nm) (stripExt (basename nm)) ++ "-" ++ pad6Str k ++ ".npz",
         ⟨(arraysOf v)[k]⟩)) ∧
    extRefs (repV (extEnv nm) v 0).1 = ((repV (extEnv nm) v 0).2.2).map Prod.fst ∧
    (∀ k, (hk : k < (arraysOf v).length) →
      findFile ((repV (extEnv nm) v 0).2.2) (extPath nm k) = some ⟨(arraysOf v)[k]⟩) ∧
    (goodV v = true →
      constructV ((repV (extEnv nm) v 0).2.2) (repV (extEnv nm) v 0).1 = .ok (canon v)) := by
  obtain ⟨hc, hf, hr⟩ := fwExtV nm v 0
  have hnodup : (((repV (extEnv nm) v 0).2.2).map Prod.fst).Nodup := by
    rw [hf]; exact enumFiles_keys_nodup nm (arraysOf v) 0
  have hget : ∀ k, (hk : k < (arraysOf v).length) →
      (repV (extEnv nm) v 0).2.2[k]? = some (extPath nm k, ⟨(arraysOf v)[k]⟩) := by
    intro k hk
    rw [hf]
    simpa using enumFiles_get nm (arraysOf v) 0 k hk
  have hfind : ∀ k, (hk : k < (arraysOf v).length) →
      findFile ((repV (extEnv nm) v 0).2.2) (extPath nm k) = some ⟨(arraysOf v)[k]⟩ := by
    intro k hk
    exact findFile_of_nodup _ _ _ hnodup (List.getElem?_mem (hget k hk))
  refine ⟨hf, fun k hk => by rw [hget k hk]; rfl, by rw [hr, hf], hfind, fun hg => ?_⟩
  apply rtV (extEnv nm) _ v 0 hg
  intro p b hmem
  exact findFile_of_nodup _ _ _ hnodup hmem

/-- Witness for C6: a two-array document dumped to `cfg/test.cfg` writes
`cfg/test-000000.npz` then `cfg/test-000001.npz` and round-trips. -/
theorem c6_external_naming_witness :
    (repV (extEnv "cfg/test.cfg") arrayDoc 0).2.2 =
      [("cfg/test-000000.npz", ⟨⟨[2], true, [1, 2]⟩⟩),
       ("cfg/test-000001.npz", ⟨⟨[3], false, [1, 2, 7]⟩⟩)] ∧
    constructV ((repV (extEnv "cfg/test.cfg") arrayDoc 0).2.2)
        (repV (extEnv "cfg/test.cfg") arrayDoc 0).1 = .ok (canon arrayDoc) :=
  ⟨((c6_external_naming arrayDoc "cfg/test.cfg").1).trans (by decide),
   (c6_external_naming arrayDoc "cfg/test.cfg").2.2.2.2 (by decide)⟩

/-- Claim C7 (counterexample): `"array(foo)"` begins with the array
prefix and its evaluation fails — with a `NameError`, not a
`SyntaxError` — and `construct_str` does NOT return the original string:
the error propagates to the caller, because only `SyntaxError` is
caught. -/
theorem c7_fallback_counterexample :
    pyEval "array(foo)" = .exc (.nameError "foo") ∧
    construct_str "array(foo)" = .error (.nameError "foo") :=
  ⟨by decide, by decide⟩

/-- Claim C7 (amended): for every string beginning with `array(`, a
`SyntaxError` from the evaluation silently falls back to the original
string value; a successful evaluation returns the evaluated array value;
and any other exception (for example a `NameError`) propagates to the
caller. -/
theorem c7_fallback (s : String) (hpre : listStarts arrLitChars s.data = true) :
    (pyEval s = .syntaxErr → construct_str s = .ok (.vstr s)) ∧
    (∀ v, pyEval s = .ok v → construct_str s = .ok v) ∧
    (∀ e, pyEval s = .exc e → construct_str s = .error e) := by
  refine ⟨fun h => ?_, fun v h => ?_, fun e h => ?_⟩ <;> simp [construct_str, hpre, h]

/-- Witness for C7 exercising both documented branches: a syntactically
invalid payload falls back to the literal string, and `"array([1, 2, 3])"`
evaluates to the 3-element integer array. -/
theorem c7_fallback_witness :
    listStarts arrLitChars ("array([1,".data) = true ∧
    construct_str "array([1," = .ok (.vstr "array([1,") ∧
    construct_str "array([1, 2, 3])" = .ok (.varray ⟨[3], true, [1, 2, 3]⟩) :=
  ⟨by decide,
   (c7_fallback "array([1," (by decide)).1 (by decide),
   (c7_fallback "array([1, 2, 3])" (by decide)).2.1 (.varray ⟨[3], true, [1, 2, 3]⟩)
     (by decide)⟩

/-- Claim C8: loading an empty input stream — for which the underlying
parser returns `None` — produces the empty ordered document, not an
error and not the null value. -/
theorem c8_empty_stream :
    orderedLoad [] none = .ok (.vmap .nil) ∧ (Value.vmap .nil) ≠ .vnull :=
  ⟨rfl, by decide⟩

/-- Claim C9: an empty frozenset dumps as an empty `!frozenset`-tagged
node (under any dump environment, touching neither counter nor files)
and loads back as the empty immutable set — not null and not an empty
sequence. -/
theorem c9_empty_frozenset (env : DEnv) (c : Nat) (fs : List (String × Npz)) :
    repV env (.vset .nil) c = (.frozensetN .nil, c, []) ∧
    constructV fs (.frozensetN .nil) = .ok (.vset .nil) ∧
    (Value.vset .nil) ≠ .vnull ∧ (Value.vset .nil) ≠ .vseq .nil := by
  refine ⟨by simp [repV, repL], by simp [constructV, constructL], by decide, by decide⟩

/-- Claim C10: `OrderedDict(construct_pairs(node))` resolves duplicate
keys with last-value-wins: the resulting document keeps each key exactly
once, at the position of the key's first occurrence, bound to the value
of the key's last occurrence in the raw pair list. -/
theorem c10_duplicate_keys (ps : VPairs) :
    keysOf (orderedDictOfPairs ps) = firstKeys (keysOf ps) ∧
    (keysOf (orderedDictOfPairs ps)).Nodup ∧
    ∀ x, findVP (orderedDictOfPairs ps) x = lastVP ps x := by
  have hkeys : keysOf (orderedDictOfPairs ps) = firstKeys (keysOf ps) := by
    simpa [orderedDictOfPairs, keysOf, firstKeys] using oodGo_keys ps .nil
  refine ⟨hkeys, ?_, ?_⟩
  · rw [hkeys]
    exact (firstGo_nodup (keysOf ps) []).1
  · intro x
    rw [orderedDictOfPairs, oodGo_find ps .nil x]
    cases h : lastVP ps x <;> simp [findVP]

end Config
